import Mathlib

/-
  Verification of `src/echo.py`, a minimal command-line echo utility.

  Python strings are modelled as lists of characters (`Str`), argument
  vectors as lists of such strings.  The module-level script is modelled
  as a pure function from the process argument vector to the character
  stream it writes to standard output.
-/

namespace Echo

/-- A Python string, modelled as its sequence of characters. -/
abbrev Str := List Char

/-- The flag prefix character string `'-'`. -/
def dash : Str := ['-']

/-- A single space, the separator of the default join. -/
def space : Str := [' ']

/-- The line terminator `'\n'`. -/
def newline : Str := ['\n']

/-- The literal token `'-s'`. -/
def sTok : Str := ['-', 's']

/-- The literal token `'-n'`. -/
def nTok : Str := ['-', 'n']

/-- Python `sep.join(xs)`: the strings of `xs` concatenated with `sep`
between consecutive elements. -/
def join (s : Str) : List Str → Str
  | [] => []
  | [x] => x
  | x :: xs => x ++ s ++ join s xs

/-- `arg.startswith('-')` from the classifier loop. -/
def isFlag (s : Str) : Bool := dash.isPrefixOf s

/-- One iteration of the loop body of `split_args`: append `arg` to the
flags accumulator when it starts with `-`, otherwise to the rest. -/
def split_step (acc : List Str × List Str) (arg : Str) : List Str × List Str :=
  if dash.isPrefixOf arg then (acc.1 ++ [arg], acc.2) else (acc.1, acc.2 ++ [arg])

/-- `split_args(args)`: split argv and return the flags separated from the
rest, as the loop in the source accumulates them. -/
def split_args (args : List Str) : List Str × List Str :=
  args.foldl split_step ([], [])

/-- `sep = '' if '-s' in flags else ' '`. -/
def sep (flags : List Str) : Str := if flags.contains sTok then [] else space

/-- `end = '' if '-n' in flags else '\n'`. -/
def end_ (flags : List Str) : Str := if flags.contains nTok then [] else newline

/-- `print(' '.join(sys.argv))`: the unconditional first output line,
spanning the whole argument vector (invocation name included). -/
def first_line (argv : List Str) : Str := join space argv ++ newline

/-- `print(sep.join(args), end=end)` applied to the split of `sys.argv[1:]`:
the formatted second output line. -/
def formatted_line (args : List Str) : Str :=
  join (sep (split_args args).1) (split_args args).2 ++ end_ (split_args args).1

/-- Everything the program writes to standard output, as a function of the
invocation name `prog` (= `sys.argv[0]`) and the user arguments. -/
def program_output (prog : Str) (args : List Str) : Str :=
  first_line (prog :: args) ++ formatted_line args

/-! ### Basic characterisations -/

lemma foldl_split_step (args : List Str) (f r : List Str) :
    args.foldl split_step (f, r) =
      (f ++ args.filter isFlag, r ++ args.filter (fun s => ! isFlag s)) := by
  induction args generalizing f r with
  | nil => simp
  | cons a t ih =>
    simp only [List.foldl_cons, split_step]
    cases h : dash.isPrefixOf a with
    | true => simp [h, ih, List.filter_cons, isFlag]
    | false => simp [h, ih, List.filter_cons, isFlag]

lemma split_args_eq_filter (args : List Str) :
    split_args args = (args.filter isFlag, args.filter (fun s => ! isFlag s)) := by
  simpa [split_args] using foldl_split_step args [] []

lemma isFlag_nil : isFlag [] = false := rfl

lemma isFlag_cons (c : Char) (cs : List Char) : isFlag (c :: cs) = (c == '-') := by
  show (('-' : Char) == c && List.isPrefixOf ([] : List Char) cs) = (c == '-')
  simp [BEq.comm]

lemma isFlag_iff (s : Str) : isFlag s = true ↔ s ≠ [] ∧ s.head? = some '-' := by
  cases s with
  | nil => simp [isFlag_nil]
  | cons c cs => simp [isFlag_cons]

lemma contains_iff_mem (l : List Str) (a : Str) : l.contains a = true ↔ a ∈ l := by
  simp [List.contains]

lemma sep_eq_mem (fl : List Str) : sep fl = if sTok ∈ fl then [] else space := by
  by_cases h : sTok ∈ fl
  · simp [sep, h, (contains_iff_mem fl sTok).2 h]
  · have hc : fl.contains sTok = false := by
      cases hc : fl.contains sTok with
      | true => exact absurd ((contains_iff_mem fl sTok).1 hc) h
      | false => rfl
    simp [sep, h, hc]

lemma end_eq_mem (fl : List Str) : end_ fl = if nTok ∈ fl then [] else newline := by
  by_cases h : nTok ∈ fl
  · simp [end_, h, (contains_iff_mem fl nTok).2 h]
  · have hc : fl.contains nTok = false := by
      cases hc : fl.contains nTok with
      | true => exact absurd ((contains_iff_mem fl nTok).1 hc) h
      | false => rfl
    simp [end_, h, hc]

lemma join_cons (s x : Str) (xs : List Str) :
    join s (x :: xs) = x ++ xs.foldr (fun a acc => s ++ a ++ acc) [] := by
  induction xs generalizing x with
  | nil => simp [join]
  | cons y ys ih => simp [join, ih, List.append_assoc]

lemma foldr_sep_append (s : Str) (xs : List Str) (t u : Str) :
    xs.foldr (fun a acc => s ++ a ++ acc) t ++ u =
      xs.foldr (fun a acc => s ++ a ++ acc) (t ++ u) := by
  induction xs with
  | nil => rfl
  | cons y ys ih =>
    simp only [List.foldr_cons]
    rw [List.append_assoc, ih]

/-- The formatted line, written out over the filtered flag and value
subsequences with propositional membership tests. -/
lemma formatted_line_eq (l : List Str) :
    formatted_line l =
      join (if sTok ∈ l.filter isFlag then ([] : Str) else space)
        (l.filter (fun s => ! isFlag s)) ++
      (if nTok ∈ l.filter isFlag then ([] : Str) else newline) := by
  unfold formatted_line
  rw [split_args_eq_filter, sep_eq_mem, end_eq_mem]

lemma mem_insert_iff (a b : List Str) (f x : Str) :
    x ∈ a ++ f :: b ↔ x = f ∨ x ∈ a ++ b := by
  simp [List.mem_append, List.mem_cons]
  tauto

/-- Inserting a flag token anywhere into the argument list adds it to the
flags of the split and leaves the values untouched. -/
lemma split_args_insert_flag (l1 l2 : List Str) (f : Str) (hf : isFlag f = true) :
    split_args (l1 ++ f :: l2) =
      (l1.filter isFlag ++ f :: l2.filter isFlag,
        (l1 ++ l2).filter (fun s => ! isFlag s)) := by
  rw [split_args_eq_filter]
  simp [List.filter_append, List.filter_cons, hf]

/-- The formatted line of an argument list with a flag `f` inserted depends
only on `f` and the remaining list. -/
lemma formatted_line_insert (l1 l2 : List Str) (f : Str) (hf : isFlag f = true) :
    formatted_line (l1 ++ f :: l2) =
      join (if f = sTok ∨ sTok ∈ (l1 ++ l2).filter isFlag then ([] : Str) else space)
        ((l1 ++ l2).filter (fun s => ! isFlag s)) ++
      (if f = nTok ∨ nTok ∈ (l1 ++ l2).filter isFlag then ([] : Str) else newline) := by
  unfold formatted_line
  rw [split_args_insert_flag l1 l2 f hf, sep_eq_mem, end_eq_mem]
  have hs : (sTok ∈ l1.filter isFlag ++ f :: l2.filter isFlag) ↔
      (f = sTok ∨ sTok ∈ (l1 ++ l2).filter isFlag) := by
    rw [mem_insert_iff, List.filter_append, @eq_comm _ sTok f]
  have hn : (nTok ∈ l1.filter isFlag ++ f :: l2.filter isFlag) ↔
      (f = nTok ∨ nTok ∈ (l1 ++ l2).filter isFlag) := by
    rw [mem_insert_iff, List.filter_append, @eq_comm _ nTok f]
  simp only [hs, hn]

/-- Removing an unrecognised flag from the argument list does not change
the formatted line. -/
lemma formatted_line_remove_flag (l1 l2 : List Str) (f : Str) (hf : isFlag f = true)
    (hn : f ≠ nTok) (hs : f ≠ sTok) :
    formatted_line (l1 ++ f :: l2) = formatted_line (l1 ++ l2) := by
  rw [formatted_line_insert l1 l2 f hf, formatted_line_eq]
  simp [hn, hs]

lemma first_line_cons (p : Str) (l : List Str) :
    first_line (p :: l) = p ++ l.foldr (fun a acc => space ++ a ++ acc) newline := by
  unfold first_line
  rw [join_cons, List.append_assoc, foldr_sep_append, List.nil_append]

/-! ### Claims -/

/-- C1: the claim that the unconditional first output line is the raw
arguments (excluding the invocation name) joined by spaces is false: with
invocation name `echo.py` and arguments `-n foo bar`, the first line is not
`-n foo bar\n`, because `' '.join(sys.argv)` includes `sys.argv[0]`. -/
theorem C1_counterexample :
    first_line ( "echo.py".toList :: [ "-n".toList, "foo".toList, "bar".toList ]) ≠
      join space [ "-n".toList, "foo".toList, "bar".toList ] ++ newline := by
  decide

/-- C1 (amended): on every invocation the first output line is the full
argument vector, invocation name included, joined by single spaces and
followed by a line terminator; with invocation name `prog` and arguments
`-n foo bar` the first line is `prog` followed by ` -n foo bar\n`. -/
theorem C1_amended_first_line (prog : Str) (args : List Str) :
    first_line (prog :: args) =
      prog ++ args.foldr (fun a acc => space ++ a ++ acc) newline ∧
    first_line (prog :: [ "-n".toList, "foo".toList, "bar".toList ]) =
      prog ++ " -n foo bar\n".toList := by
  refine ⟨first_line_cons prog args, ?_⟩
  rw [first_line_cons]
  congr 1

/-- C2: classification places a string in the flags exactly when it is
non-empty and starts with `-`; every other string, the empty string
included, goes to the values, order preserved. -/
theorem C2_classification (args : List Str) :
    (split_args args).1 = args.filter (fun s => decide (s ≠ [] ∧ s.head? = some '-')) ∧
    (split_args args).2 = args.filter (fun s => ! decide (s ≠ [] ∧ s.head? = some '-')) := by
  have hp : ∀ s : Str, isFlag s = decide (s ≠ [] ∧ s.head? = some '-') := by
    intro s
    cases h : decide (s ≠ [] ∧ s.head? = some '-') with
    | true => exact (isFlag_iff s).2 (of_decide_eq_true h)
    | false =>
      cases hf : isFlag s with
      | false => rfl
      | true => exact absurd (decide_eq_true ((isFlag_iff s).1 hf)) (by simp [h])
  rw [split_args_eq_filter]
  constructor
  · exact List.filter_congr (fun s _ => hp s)
  · exact List.filter_congr (fun s _ => by rw [hp s])

/-- C3: splitting is a stable partition: the lengths of the flags and the
values add up to the input length, their concatenation is a permutation of
the input, each output is a subsequence of the input (so relative order is
preserved), and no string lands in both outputs. -/
theorem C3_stable_partition (A : List Str) :
    (split_args A).1.length + (split_args A).2.length = A.length ∧
    List.Perm ((split_args A).1 ++ (split_args A).2) A ∧
    List.Sublist (split_args A).1 A ∧ List.Sublist (split_args A).2 A ∧
    ∀ s : Str, ¬ (s ∈ (split_args A).1 ∧ s ∈ (split_args A).2) := by
  rw [split_args_eq_filter]
  refine ⟨?_, List.filter_append_perm isFlag A, List.filter_sublist A,
    List.filter_sublist A, ?_⟩
  · have h := (List.filter_append_perm isFlag A).length_eq
    simpa using h
  · intro s hs
    rcases hs with ⟨h1, h2⟩
    rw [List.mem_filter] at h1 h2
    have hb1 := h1.2
    have hb2 := h2.2
    simp [hb1] at hb2

/-- C4: the separator of the formatted line is the empty string exactly
when `-s` occurs as an element of the flags (exact membership, so `-sx`
does not count), and a single space otherwise; in particular the invocation
`-s a b c` formats as `abc\n`. -/
theorem C4_separator (fl : List Str) :
    (sep fl = [] ↔ sTok ∈ fl) ∧ (sep fl = [] ∨ sep fl = space) ∧
    sep [ "-sx".toList ] = space ∧
    formatted_line [ "-s".toList, "a".toList, "b".toList, "c".toList ] = "abc\n".toList := by
  refine ⟨?_, ?_, by decide, by decide⟩
  · rw [sep_eq_mem]
    by_cases h : sTok ∈ fl
    · simp [h]
    · simp [h, space]
  · rw [sep_eq_mem]
    by_cases h : sTok ∈ fl
    · exact Or.inl (by simp [h])
    · exact Or.inr (by simp [h])

/-- C5: the terminator of the formatted line is empty exactly when `-n`
occurs as an element of the flags (exact membership, so `-no` does not
count), and a single `\n` otherwise; in particular the invocation
`-n -s a b` formats as `ab` with no trailing newline. -/
theorem C5_terminator (fl : List Str) :
    (end_ fl = [] ↔ nTok ∈ fl) ∧ (end_ fl = [] ∨ end_ fl = newline) ∧
    end_ [ "-no".toList ] = newline ∧
    formatted_line [ "-n".toList, "-s".toList, "a".toList, "b".toList ] = "ab".toList := by
  refine ⟨?_, ?_, by decide, by decide⟩
  · rw [end_eq_mem]
    by_cases h : nTok ∈ fl
    · simp [h]
    · simp [h, newline]
  · rw [end_eq_mem]
    by_cases h : nTok ∈ fl
    · exact Or.inl (by simp [h])
    · exact Or.inr (by simp [h])

/-- C6: classifying the empty argument list yields two empty lists, and
with zero arguments the formatted second output line is exactly `\n`. -/
theorem C6_empty_args :
    split_args [] = ([], []) ∧ formatted_line [] = "\n".toList := by
  decide

/-- C7: a flag other than the literals `-n` and `-s` is accepted and has no
effect: removing it, or replacing it by any other unrecognised flag, leaves
the formatted line (content, separator and terminator) unchanged. -/
theorem C7_unrecognized_flags (l1 l2 : List Str) (f g : Str)
    (hf : isFlag f = true) (hfn : f ≠ nTok) (hfs : f ≠ sTok)
    (hg : isFlag g = true) (hgn : g ≠ nTok) (hgs : g ≠ sTok) :
    formatted_line (l1 ++ f :: l2) = formatted_line (l1 ++ l2) ∧
    formatted_line (l1 ++ f :: l2) = formatted_line (l1 ++ g :: l2) := by
  refine ⟨formatted_line_remove_flag l1 l2 f hf hfn hfs, ?_⟩
  rw [formatted_line_remove_flag l1 l2 f hf hfn hfs,
    formatted_line_remove_flag l1 l2 g hg hgn hgs]

/-- Witness for C7 at `l1 = [a]`, `l2 = [b]`, `f = -x`, `g = -y`. -/
theorem C7_witness :
    formatted_line ([ "a".toList ] ++ "-x".toList :: [ "b".toList ]) =
        formatted_line ([ "a".toList ] ++ [ "b".toList ]) ∧
    formatted_line ([ "a".toList ] ++ "-x".toList :: [ "b".toList ]) =
        formatted_line ([ "a".toList ] ++ "-y".toList :: [ "b".toList ]) :=
  C7_unrecognized_flags [ "a".toList ] [ "b".toList ] ( "-x".toList ) ( "-y".toList )
    (by decide) (by decide) (by decide) (by decide) (by decide) (by decide)

/-- C8: the program is deterministic: its whole standard-output stream is a
pure function of the argument vector, so two invocations with identical
argument vectors produce byte-identical output. -/
theorem C8_deterministic (prog1 prog2 : Str) (args1 args2 : List Str)
    (hp : prog1 = prog2) (ha : args1 = args2) :
    program_output prog1 args1 = program_output prog2 args2 := by
  rw [hp, ha]

/-- Witness for C8 at a concrete invocation. -/
theorem C8_witness :
    program_output ( "echo.py".toList ) [ "a".toList ] =
      program_output ( "echo.py".toList ) [ "a".toList ] :=
  C8_deterministic ( "echo.py".toList ) ( "echo.py".toList )
    [ "a".toList ] [ "a".toList ] rfl rfl

/-- C9: the unconditional first output line covers the whole argument
vector including the invocation name, so it always begins with the
invocation name, and with zero user arguments it is the invocation name
followed by the terminator rather than an empty line. -/
theorem C9_first_line_includes_argv0 (prog : Str) (args : List Str) :
    first_line (prog :: args) =
      prog ++ args.foldr (fun a acc => space ++ a ++ acc) newline ∧
    List.IsPrefix prog (first_line (prog :: args)) ∧
    first_line [prog] = prog ++ newline := by
  refine ⟨first_line_cons prog args, ⟨_, (first_line_cons prog args).symm⟩, ?_⟩
  rw [first_line_cons]
  rfl

/-- C10: the formatted line is position-independent in the flags: moving a
flag token anywhere else in the argument list (in particular past all the
values) leaves the formatted line unchanged. -/
theorem C10_flag_position_independent (l1 l2 m1 m2 : List Str) (f : Str)
    (hf : isFlag f = true) (h : l1 ++ l2 = m1 ++ m2) :
    formatted_line (l1 ++ f :: l2) = formatted_line (m1 ++ f :: m2) := by
  rw [formatted_line_insert l1 l2 f hf, formatted_line_insert m1 m2 f hf, h]

/-- Witness for C10: moving `-n` from the middle to the front. -/
theorem C10_witness :
    formatted_line ([ "a".toList ] ++ "-n".toList :: [ "b".toList ]) =
      formatted_line (([] : List Str) ++ "-n".toList :: [ "a".toList, "b".toList ]) :=
  C10_flag_position_independent [ "a".toList ] [ "b".toList ] []
    [ "a".toList, "b".toList ] ( "-n".toList ) (by decide) (by decide)

end Echo
